import Mathlib

/-!
Verification of the war3MapInfoTranslator converters against their
natural-language specification.  The Python sources
`war3map_converter.py` (nested two-section format) and
`war3map_w3i_converter.py` (flat key/value format) are shallowly embedded
below: text is modelled as `List Char`, each scanning loop of the source
becomes a structurally recursive (or fuel-bounded) Lean function, and the
Python `dict` becomes an insertion-ordered association list.
-/

namespace War3Map

/-- Single-quote character, written via its code point. -/
def sq : Char := Char.ofNat 39

/-- Whitespace set matched by Python's `\s` and `str.strip()` (ASCII part). -/
def isPySpace (c : Char) : Bool :=
  c = ' ' || c = '\t' || c = '\n' || c = '\r' || c = Char.ofNat 11 || c = Char.ofNat 12

/-- Characters matched by the id classes `[A-Za-z0-9_]` in the source regexes. -/
def isIdChar (c : Char) : Bool :=
  c.isAlphanum || c = '_'

/-- Strip a boolean character class from both ends of a character list. -/
def stripEnds (p : Char → Bool) (v : List Char) : List Char :=
  ((v.dropWhile p).reverse.dropWhile p).reverse

/-- Python `str.strip()` with no argument: remove surrounding whitespace. -/
def pyStrip (v : List Char) : List Char := stripEnds isPySpace v

/-- Quote characters stripped by the W3I formatter's `strip('"\'')`. -/
def isQuoteChar (c : Char) : Bool := c = '"' || c = sq

/-- Python `str.strip('"\'')`: remove surrounding single/double quotes. -/
def pyStripQuotes (v : List Char) : List Char := stripEnds isQuoteChar v

/-! ### Python `float()` acceptance

`_format_field_value` classifies a value as numeric exactly when
`float(field_value)` does not raise.  The grammar below mirrors CPython's
float parsing on ASCII input: surrounding whitespace, an optional sign,
`inf`/`infinity`/`nan` (case insensitive), or a decimal mantissa with
optional fraction and exponent, with underscores allowed between digits. -/

/-- Consume `(('_')? digit)*` after an initial digit has been read. -/
def digitsTail : List Char → List Char
  | '_' :: c :: rest => if c.isDigit then digitsTail rest else '_' :: c :: rest
  | c :: rest => if c.isDigit then digitsTail rest else c :: rest
  | [] => []

/-- Consume a digit group `digit (('_')? digit)*`; `none` when no leading digit. -/
def consumeDigits : List Char → Option (List Char)
  | c :: rest => if c.isDigit then some (digitsTail rest) else none
  | [] => none

/-- Consume the mantissa `digits ['.' [digits]] | '.' digits` of a float literal. -/
def floatMantissa (s : List Char) : Option (List Char) :=
  match consumeDigits s with
  | some r =>
    match r with
    | '.' :: r2 =>
      match consumeDigits r2 with
      | some r3 => some r3
      | none => some r2
    | _ => some r
  | none =>
    match s with
    | '.' :: r2 => consumeDigits r2
    | _ => none

/-- Consume a well-formed exponent `('e'|'E') sign? digits` if present;
otherwise return the input unchanged so that the leftover check fails. -/
def consumeExp (s : List Char) : List Char :=
  match s with
  | c :: rest =>
    if c = 'e' || c = 'E' then
      match rest with
      | d :: r2 =>
        if d = '+' || d = '-' then
          match consumeDigits r2 with
          | some x => x
          | none => s
        else
          match consumeDigits rest with
          | some x => x
          | none => s
      | [] => s
    else s
  | [] => []

/-- Drop a single leading sign character. -/
def stripSign (s : List Char) : List Char :=
  match s with
  | c :: r => if c = '+' || c = '-' then r else s
  | [] => []

/-- Whether Python's `float()` accepts the string without raising. -/
def pyFloatAccepts (s : List Char) : Bool :=
  let t := stripSign (pyStrip s)
  let low := t.map Char.toLower
  if low = "inf".data || low = "infinity".data || low = "nan".data then true
  else
    match floatMantissa t with
    | some r => consumeExp r = []
    | none => false

/-! ### Value formatters (`_format_field_value` of each converter) -/

/-- Nested converter `War3MapConverter._format_field_value`: empty values
become a quoted empty string, values whose stripped form is bounded by
braces are returned stripped, float-parsable values are returned bare,
quote-bounded values are returned unchanged, everything else is wrapped
in double quotes. -/
def formatFieldValue (v : List Char) : List Char :=
  if v = [] then ['"', '"']
  else if (pyStrip v).head? = some '{' ∧ (pyStrip v).getLast? = some '}' then pyStrip v
  else if pyFloatAccepts v then v
  else if (v.head? = some '"' ∧ v.getLast? = some '"') ∨
          (v.head? = some sq ∧ v.getLast? = some sq) then v
  else '"' :: v ++ ['"']

/-- Flat converter `War3MapW3IConverter._format_field_value`: same empty,
brace and float tests, but the brace branch returns the value unstripped
and the string branch strips every surrounding quote character before
wrapping in double quotes. -/
def formatFieldValueW3I (v : List Char) : List Char :=
  if v = [] then ['"', '"']
  else if (pyStrip v).head? = some '{' ∧ (pyStrip v).getLast? = some '}' then v
  else if pyFloatAccepts v then v
  else '"' :: pyStripQuotes v ++ ['"']

/-! ### Duplicate-field join marker -/

/-- The private join marker `おなに` used to pack a MultiValue into one cell. -/
def marker : List Char := ['お', 'な', 'に']

/-- Python `field_value.split("おなに")` specialised to the fixed marker:
split at every non-overlapping occurrence, scanning left to right.
`acc` holds the current piece, reversed. -/
def splitMarkerAux : List Char → List Char → List (List Char)
  | acc, [] => [acc.reverse]
  | acc, c :: rest =>
    if c = 'お' then
      match rest with
      | 'な' :: 'に' :: r2 => acc.reverse :: splitMarkerAux [] r2
      | r => splitMarkerAux (c :: acc) r
    else splitMarkerAux (c :: acc) rest

/-- Split a merged cell back into its MultiValue pieces. -/
def splitMarker (v : List Char) : List (List Char) := splitMarkerAux [] v

/-- Python `"おなに" in field_value`. -/
def containsMarker : List Char → Bool
  | [] => false
  | c :: rest =>
    if c = 'お' then
      match rest with
      | 'な' :: 'に' :: _ => true
      | _ => containsMarker rest
    else containsMarker rest

/-- Join a MultiValue into a single merged cell, marker between pieces. -/
def joinMarker : List (List Char) → List Char
  | [] => []
  | [v] => v
  | v :: rest => v ++ marker ++ joinMarker rest

/-- Insertion-ordered dict update with duplicate merge, as performed by
`_parse_entry_fields` / `_parse_key_value_pairs`: an existing key keeps its
slot and its value grows by `marker ++ v`; a new key is appended. -/
def dictInsert (d : List (List Char × List Char)) (n v : List Char) :
    List (List Char × List Char) :=
  match d with
  | [] => [(n, v)]
  | (k, w) :: rest =>
    if k = n then (k, w ++ marker ++ v) :: rest else (k, w) :: dictInsert rest n v

/-- Insertion-ordered dict assignment `data[k] = v`, as performed by
`_parse_data_section`: an existing key keeps its slot but its value is
replaced; a new key is appended. -/
def dictSet {α : Type} (d : List (List Char × α)) (k : List Char) (v : α) :
    List (List Char × α) :=
  match d with
  | [] => [(k, v)]
  | (k0, w) :: rest =>
    if k0 = k then (k0, v) :: rest else (k0, w) :: dictSet rest k v

/-! ### CSV cell cleaning and the TXT writer's per-field emission -/

/-- `_clean_value_for_csv`: replace newlines/carriage returns/tabs by spaces,
then collapse whitespace runs via `' '.join(value.split())`. -/
def pySplitWSAux : List Char → List Char → List (List Char)
  | acc, [] => if acc = [] then [] else [acc.reverse]
  | acc, c :: rest =>
    if isPySpace c then
      if acc = [] then pySplitWSAux [] rest else acc.reverse :: pySplitWSAux [] rest
    else pySplitWSAux (c :: acc) rest

/-- Python `str.split()` (no argument): split on whitespace runs, no empties. -/
def pySplitWS (v : List Char) : List (List Char) := pySplitWSAux [] v

/-- Join word list with single spaces, i.e. `' '.join(words)`. -/
def joinSpaces : List (List Char) → List Char
  | [] => []
  | [w] => w
  | w :: rest => w ++ ' ' :: joinSpaces rest

/-- `_clean_value_for_csv` from both converters (their bodies are identical). -/
def cleanValueForCsv (v : List Char) : List Char :=
  if v = [] then []
  else joinSpaces (pySplitWS (v.map fun c =>
    if c = '\n' || c = '\r' || c = '\t' then ' ' else c))

/-- One output line `\t\t\t<name>=<formatted value>,\n` of `_write_txt_file`. -/
def fieldLine (n v : List Char) : List Char :=
  '\t' :: '\t' :: '\t' :: n ++ '=' :: formatFieldValue v ++ [',', '\n']

/-- The lines `_write_txt_file` emits for one stored field: a cell holding
the join marker is split back into its pieces, one line per piece;
otherwise a single line is emitted. -/
def writeFieldLines (n v : List Char) : List (List Char) :=
  if containsMarker v then (splitMarker v).map (fieldLine n)
  else [fieldLine n v]

/-- Value-level TXT→CSV→TXT round trip for a single-valued field: the CSV
writer stores `_clean_value_for_csv value` in one cell (the `csv` module's
quoting round-trips cell text unchanged), `_read_csv` strips the cell, and
`_write_txt_file` formats it via `_format_field_value`. -/
def roundTripValue (v : List Char) : List Char :=
  formatFieldValue (pyStrip (cleanValueForCsv v))

/-! ### Field scanner (`_parse_entry_fields`)

Each branch below transcribes one value-extraction branch of the Python
scanner; positions become list suffixes and every scan returns the
consumed span together with the remaining text. -/

/-- Scan of a double-quoted span after its opening quote: stop at the next
unescaped `"` (included when present), a backslash skips the next char. -/
def scanQuotedAux : List Char → List Char × List Char
  | [] => ([], [])
  | '"' :: rest => (['"'], rest)
  | '\\' :: c :: rest =>
    let (a, r) := scanQuotedAux rest
    ('\\' :: c :: a, r)
  | c :: rest =>
    let (a, r) := scanQuotedAux rest
    (c :: a, r)

/-- Brace-depth scan of a nested-table value after its opening `{`, with
quote-aware skipping of `{`/`}` inside double-quoted spans.  `count` is the
current depth; the fuel only bounds the iteration and is chosen large
enough to never run out. -/
def scanBracedAux : Nat → Nat → List Char → List Char × List Char
  | 0, _, s => ([], s)
  | _ + 1, 0, s => ([], s)
  | fuel + 1, count + 1, s =>
    match s with
    | [] => ([], [])
    | '"' :: r =>
      let (a, r2) := scanQuotedAux r
      let (b, r3) := scanBracedAux fuel (count + 1) r2
      ('"' :: a ++ b, r3)
    | '{' :: r =>
      let (b, r3) := scanBracedAux fuel (count + 2) r
      ('{' :: b, r3)
    | '}' :: r =>
      let (b, r3) := scanBracedAux fuel count r
      ('}' :: b, r3)
    | c :: r =>
      let (b, r3) := scanBracedAux fuel (count + 1) r
      (c :: b, r3)

/-- Anchored match of the field-name pattern `([a-zA-Z][a-zA-Z0-9_]*)\s*=\s*`;
returns the name and the text after the match. -/
def matchFieldName (s : List Char) : Option (List Char × List Char) :=
  match s with
  | c :: rest =>
    if c.isAlpha then
      let nmTail := rest.takeWhile isIdChar
      let r1 := (rest.drop nmTail.length).dropWhile isPySpace
      match r1 with
      | '=' :: r2 => some (c :: nmTail, r2.dropWhile isPySpace)
      | _ => none
    else none
  | [] => none

/-- Bare-value termination test: after a newline, does the next line (past
spaces/tabs) start a new field `[a-zA-Z][a-zA-Z0-9_]*\s*=`? -/
def lookaheadNewField (s : List Char) : Bool :=
  let t := s.dropWhile fun c => c = ' ' || c = '\t'
  match t with
  | c :: rest =>
    if c.isAlpha then
      match (rest.drop (rest.takeWhile isIdChar).length).dropWhile isPySpace with
      | '=' :: _ => true
      | _ => false
    else false
  | [] => false

/-- Scan of a bare token value: stop at a comma, or at a newline whose next
line starts a new field; other newlines stay inside the value. -/
def scanBare : List Char → List Char × List Char
  | [] => ([], [])
  | ',' :: rest => ([], ',' :: rest)
  | '\n' :: rest =>
    if lookaheadNewField rest then ([], '\n' :: rest)
    else
      let (a, r) := scanBare rest
      ('\n' :: a, r)
  | c :: rest =>
    let (a, r) := scanBare rest
    (c :: a, r)

/-- Characters skipped between fields (`',', '\n', '\r', ' ', '\t'`). -/
def isFieldSkipChar (c : Char) : Bool :=
  c = ',' || c = '\n' || c = '\r' || c = ' ' || c = '\t'

/-- Whitespace skipped at the top of the field loop. -/
def isEntryWS (c : Char) : Bool :=
  c = ' ' || c = '\t' || c = '\n' || c = '\r'

/-- Main loop of `_parse_entry_fields`: skip whitespace, match a field
name, classify and extract its value, merge duplicates with the marker.
On a failed name match the scanner advances one character. -/
def parseEntryFieldsAux :
    Nat → List Char → List (List Char × List Char) → List (List Char × List Char)
  | 0, _, fields => fields
  | fuel + 1, s, fields =>
    let s1 := s.dropWhile isEntryWS
    match matchFieldName s1 with
    | none =>
      match s1 with
      | [] => fields
      | _ :: rest => parseEntryFieldsAux fuel rest fields
    | some (name, s2) =>
      match s2 with
      | [] => fields
      | '"' :: r =>
        let (a, r2) := scanQuotedAux r
        parseEntryFieldsAux fuel (r2.dropWhile isFieldSkipChar)
          (dictInsert fields name ('"' :: a))
      | '{' :: r =>
        let (b, r2) := scanBracedAux (r.length + 1) 1 r
        parseEntryFieldsAux fuel (r2.dropWhile isFieldSkipChar)
          (dictInsert fields name ('{' :: b))
      | _ =>
        let (a, r2) := scanBare s2
        parseEntryFieldsAux fuel (r2.dropWhile isFieldSkipChar)
          (dictInsert fields name (pyStrip a))

/-- `_parse_entry_fields`: one entry body to its ordered field dict. -/
def parseEntryFields (s : List Char) : List (List Char × List Char) :=
  parseEntryFieldsAux (s.length + 1) s []

/-! ### Entry-level brace matching and the section parser -/

/-- `find_matching_brace` from `_parse_data_section`: naive depth count
from `start` over the whole text — quotes are NOT skipped here.  Returns
the index of the brace that brings the count to zero (`-1` becomes
`none`). -/
def findMBAux : Int → List Char → Nat → Option Nat
  | _, [], _ => none
  | cnt, c :: r, i =>
    if c = '{' then findMBAux (cnt + 1) r (i + 1)
    else if c = '}' then
      if cnt - 1 = 0 then some i else findMBAux (cnt - 1) r (i + 1)
    else findMBAux cnt r (i + 1)

/-- Entry point of the naive brace matcher, scanning `text` from `start`. -/
def findMatchingBrace (text : List Char) (start : Nat) : Option Nat :=
  findMBAux 0 (text.drop start) start

/-- Anchored match of `^\s*([A-Za-z0-9_]+)\s*=\s*\{`; returns the id and
the length of the whole match (which ends just after the `{`). -/
def matchEntryHead (s : List Char) : Option (List Char × Nat) :=
  let w1 := s.takeWhile isPySpace
  let r1 := s.drop w1.length
  let nm := r1.takeWhile isIdChar
  if nm = [] then none
  else
    let r2 := r1.drop nm.length
    let w2 := r2.takeWhile isPySpace
    match r2.drop w2.length with
    | '=' :: r3 =>
      let w3 := r3.takeWhile isPySpace
      match r3.drop w3.length with
      | '{' :: _ => some (nm, w1.length + nm.length + w2.length + 1 + w3.length + 1)
      | _ => none
    | _ => none

/-- `re.search` with `MULTILINE` for the entry-head pattern over a slice:
the anchored match may only start at the slice start or just after a
newline; returns the id and the offset just past the matched `{`. -/
def searchEntryHeadAux : List Char → Nat → Bool → Option (List Char × Nat)
  | [], _, _ => none
  | c :: r, i, atStart =>
    match (if atStart then matchEntryHead (c :: r) else none) with
    | some (nm, len) => some (nm, i + len)
    | none => searchEntryHeadAux r (i + 1) (c = '\n')

/-- Loop of `_parse_data_section`: find the next entry head, match its
closing brace naively, parse the body, assign `data[id] = fields`; an
unbalanced entry is skipped by advancing past its head. -/
def parseDataSectionAux :
    Nat → List Char → Nat → List (List Char × List (List Char × List Char)) →
    List (List Char × List (List Char × List Char))
  | 0, _, _, data => data
  | fuel + 1, content, pos, data =>
    if pos < content.length then
      match searchEntryHeadAux (content.drop pos) 0 true with
      | none => data
      | some (nm, endRel) =>
        let startBrace := pos + endRel - 1
        match findMatchingBrace content startBrace with
        | none => parseDataSectionAux fuel content (pos + endRel) data
        | some endBrace =>
          let body := (content.drop (startBrace + 1)).take (endBrace - (startBrace + 1))
          parseDataSectionAux fuel content (endBrace + 1)
            (dictSet data nm (parseEntryFields body))
    else data

/-- `_parse_data_section`: a section body to its ordered entry dict. -/
def parseDataSection (content : List Char) :
    List (List Char × List (List Char × List Char)) :=
  parseDataSectionAux (content.length + 1) content 0 []

/-! ### Structural extraction (`_extract_section`, VERSION, `return {...}`) -/

/-- Match a literal character sequence, returning the remaining text. -/
def litPrefix : List Char → List Char → Option (List Char)
  | [], s => some s
  | _ :: _, [] => none
  | c :: cs, d :: ds => if c = d then litPrefix cs ds else none

/-- Anchored match of `<name>\s*=\s*\{`; returns the offset of the `{`. -/
def matchSectionHead (name s : List Char) : Option Nat :=
  match litPrefix name s with
  | none => none
  | some r1 =>
    let w1 := r1.takeWhile isPySpace
    match r1.drop w1.length with
    | '=' :: r2 =>
      let w2 := r2.takeWhile isPySpace
      match r2.drop w2.length with
      | '{' :: _ => some (name.length + w1.length + 1 + w2.length)
      | _ => none
    | _ => none

/-- Leftmost search for the section-head pattern. -/
def searchSectionHeadAux (name : List Char) : List Char → Nat → Option Nat
  | [], _ => none
  | c :: r, i =>
    match matchSectionHead name (c :: r) with
    | some off => some (i + off)
    | none => searchSectionHeadAux name r (i + 1)

/-- `_extract_section`: find `<name> = {`, then count braces naively to the
matching close; the span strictly inside is returned, or `""` when the
head is absent or the braces never balance. -/
def extractSection (content name : List Char) : List Char :=
  match searchSectionHeadAux name content 0 with
  | none => []
  | some bracePos =>
    match findMatchingBrace content bracePos with
    | none => []
    | some endB => (content.drop (bracePos + 1)).take (endB - (bracePos + 1))

/-- Anchored match of `VERSION\s*=\s*(\d+)`; returns the digit group. -/
def matchVersionAt : List Char → Option (List Char)
  | 'V' :: 'E' :: 'R' :: 'S' :: 'I' :: 'O' :: 'N' :: r =>
    match r.dropWhile isPySpace with
    | '=' :: r2 =>
      let ds := (r2.dropWhile isPySpace).takeWhile Char.isDigit
      if ds = [] then none else some ds
    | _ => none
  | _ => none

/-- Leftmost search for the VERSION pattern anywhere in the text. -/
def searchVersionAux : List Char → Option (List Char)
  | [] => none
  | c :: r =>
    match matchVersionAt (c :: r) with
    | some ds => some ds
    | none => searchVersionAux r

/-- Decimal value of a digit group, as `int()` computes it. -/
def natOfDigits (ds : List Char) : Nat :=
  ds.foldl (fun a c => a * 10 + (c.toNat - 48)) 0

/-- Version recovered by the nested `_parse_txt_file`: the first
`VERSION = <int>` match anywhere, defaulting to 2. -/
def nestedVersionOf (content : List Char) : Nat :=
  match searchVersionAux content with
  | some ds => natOfDigits ds
  | none => 2

/-- Group of `return\s*\{(.*)\}` under `DOTALL`: everything between the
`{` and the last `}` of the remaining text (`none` if no `}` follows). -/
def lastBraceSplit (rest : List Char) : Option (List Char) :=
  match rest.reverse.dropWhile (fun c => c ≠ '}') with
  | '}' :: g => some g.reverse
  | _ => none

/-- Anchored match of `return\s*\{(.*)\}`. -/
def matchReturnAt : List Char → Option (List Char)
  | 'r' :: 'e' :: 't' :: 'u' :: 'r' :: 'n' :: r =>
    match r.dropWhile isPySpace with
    | '{' :: rest => lastBraceSplit rest
    | _ => none
  | _ => none

/-- Leftmost search for the `return {...}` wrapper. -/
def searchReturnAux : List Char → Option (List Char)
  | [] => none
  | c :: r =>
    match matchReturnAt (c :: r) with
    | some g => some g
    | none => searchReturnAux r

/-- Result of the nested `_parse_txt_file` on decoded text. -/
structure NestedDoc where
  version : Nat
  origin : List (List Char × List (List Char × List Char))
  custom : List (List Char × List (List Char × List Char))
deriving DecidableEq

/-- Nested `_parse_txt_file` on decoded text: extract VERSION, fall back
to the whole content when the `return {...}` wrapper is missing, then
parse whichever of ORIGIN/CUSTOM is present (an absent or empty section
leaves the empty dict).  No branch of this parse fails. -/
def parseNestedTxt (content : List Char) : NestedDoc :=
  let mainContent :=
    match searchReturnAux content with
    | some mc => mc
    | none => content
  let originC := extractSection mainContent "ORIGIN".data
  let customC := extractSection mainContent "CUSTOM".data
  { version := nestedVersionOf content
    origin := if originC ≠ [] then parseDataSection originC else []
    custom := if customC ≠ [] then parseDataSection customC else [] }

/-! ### Flat (W3I) pair parser -/

/-- Anchored match of the pair pattern `\{\s*([^,}]+)\s*,\s*([^}]*)\}`:
returns the raw key span, the offset of the value group, the raw value
span and the offset just past the matched `}`. -/
def matchPairAt (s : List Char) : Option (List Char × Nat × List Char × Nat) :=
  match s with
  | '{' :: r =>
    let kRun := r.takeWhile fun c => !(c = ',' || c = '}')
    if kRun = [] then none
    else
      match r.drop kRun.length with
      | ',' :: r3 =>
        let ws := r3.takeWhile isPySpace
        let r4 := r3.drop ws.length
        let vRun := r4.takeWhile fun c => !(c = '}')
        match r4.drop vRun.length with
        | '}' :: _ =>
          some (kRun, 1 + kRun.length + 1 + ws.length, vRun,
                1 + kRun.length + 1 + ws.length + vRun.length + 1)
        | _ => none
      | _ => none
  | _ => none

/-- Leftmost search for the pair pattern; offsets relative to the slice. -/
def searchPairAux : List Char → Nat → Option (Nat × List Char × Nat × List Char × Nat)
  | [], _ => none
  | c :: r, i =>
    match matchPairAt (c :: r) with
    | some (k, vs, v, e) => some (i, k, vs, v, e)
    | none => searchPairAux r (i + 1)

/-- Key cleanup of `_parse_key_value_pairs`: strip one pair of matching
surrounding single or double quotes. -/
def stripKeyQuotes (k : List Char) : List Char :=
  if k.head? = some sq ∧ k.getLast? = some sq then (k.drop 1).dropLast
  else if k.head? = some '"' ∧ k.getLast? = some '"' then (k.drop 1).dropLast
  else k

/-- Loop of `_parse_key_value_pairs`: find the next `{key, value}` match,
strip the key, recover a full nested-table value by a naive brace scan
when the value span starts with `{`, merge duplicate keys with the
marker, then skip separator characters. -/
def parseKVPairsAux :
    Nat → List Char → Nat → List (List Char × List Char) → List (List Char × List Char)
  | 0, _, _, data => data
  | fuel + 1, content, pos, data =>
    if pos < content.length then
      match searchPairAux (content.drop pos) 0 with
      | none => data
      | some (off, kRun, vStartRel, vRun, endRel) =>
        let key := stripKeyQuotes (pyStrip kRun)
        let value0 := pyStrip vRun
        let startPos := pos + off + vStartRel
        let step :=
          if value0.head? = some '{' then
            match findMatchingBrace content startPos with
            | some e => ((content.drop startPos).take (e + 1 - startPos), e + 1)
            | none => (value0, pos + off + endRel)
          else (value0, pos + off + endRel)
        let posFinal := step.2 + ((content.drop step.2).takeWhile isFieldSkipChar).length
        parseKVPairsAux fuel content posFinal (dictInsert data key step.1)
    else data

/-- `_parse_key_value_pairs`: flat body to its ordered key dict. -/
def parseKVPairs (content : List Char) : List (List Char × List Char) :=
  parseKVPairsAux (content.length + 1) content 0 []

/-- Error message raised by the flat `_parse_txt_file` on a missing
`return {...}` wrapper. -/
def w3iMissingReturnMsg : List Char := "未找到标准的return结构".data

/-- Flat `_parse_txt_file` on decoded text: unlike the nested converter it
RAISES when the `return {...}` wrapper is missing; otherwise it parses the
pairs.  `self.version` (initially 25) is never updated by this parse, so
the version component is simply threaded through. -/
def parseW3ITxt (version : Nat) (content : List Char) :
    Except (List Char) (Nat × List (List Char × List Char)) :=
  match searchReturnAux content with
  | none => .error w3iMissingReturnMsg
  | some mc => .ok (version, parseKVPairs mc)

/-! ### Entry-id split and rejoin -/

/-- `_split_id`: split a full id at the first underscore into main id and
suffix; an id without an underscore has an empty suffix. -/
def splitId (s : List Char) : List Char × List Char :=
  if '_' ∈ s then (s.takeWhile (fun c => c ≠ '_'), (s.dropWhile (fun c => c ≠ '_')).tail)
  else (s, [])

/-- Rejoining done by `_read_csv`: `f"{main}_{suffix}"` when the suffix is
nonempty, else the main id alone. -/
def rejoinId (m suf : List Char) : List Char :=
  if suf ≠ [] then m ++ '_' :: suf else m

/-! ### Brace accounting used to state naive-matcher correctness -/

/-- Depth contribution of one character. -/
def braceDelta (c : Char) : Int :=
  if c = '{' then 1 else if c = '}' then -1 else 0

/-- Net brace depth of a span. -/
def braceCount : List Char → Int
  | [] => 0
  | c :: r => braceDelta c + braceCount r

/-! ### Claim-side formatter readings (for comparison with the source) -/

/-- Modelled from the words of claim C4, read literally: a value bounded
by matching braces — the value itself, not its stripped form — is emitted
unchanged, and every value falling through all tests is wrapped in double
quotes. -/
def formatFieldValueClaim (v : List Char) : List Char :=
  if v = [] then ['"', '"']
  else if v.head? = some '{' ∧ v.getLast? = some '}' then v
  else if pyFloatAccepts v then v
  else if (v.head? = some '"' ∧ v.getLast? = some '"') ∨
          (v.head? = some sq ∧ v.getLast? = some sq) then v
  else '"' :: v ++ ['"']

/-- Claim C4 amended: the nested-table test applies to the
whitespace-stripped value and such values are emitted stripped; the other
branches are as the claim states them. -/
def formatFieldValueClaimAmended (v : List Char) : List Char :=
  if v = [] then ['"', '"']
  else if (pyStrip v).head? = some '{' ∧ (pyStrip v).getLast? = some '}' then pyStrip v
  else if pyFloatAccepts v then v
  else if (v.head? = some '"' ∧ v.getLast? = some '"') ∨
          (v.head? = some sq ∧ v.getLast? = some sq) then v
  else '"' :: v ++ ['"']

/-! ## Helper lemmas -/

theorem dropWhile_eq_self_of_head {p : Char → Bool} {v : List Char}
    (h : ∀ c, v.head? = some c → p c = false) : v.dropWhile p = v := by
  cases v with
  | nil => rfl
  | cons c r => simp [List.dropWhile, h c rfl]

theorem takeWhile_eq_nil_of_head {p : Char → Bool} {v : List Char}
    (h : ∀ c, v.head? = some c → p c = false) : v.takeWhile p = [] := by
  cases v with
  | nil => rfl
  | cons c r => simp [List.takeWhile, h c rfl]

theorem stripEnds_eq_self_of {p : Char → Bool} {v : List Char}
    (h1 : ∀ c, v.head? = some c → p c = false)
    (h2 : ∀ c, v.getLast? = some c → p c = false) : stripEnds p v = v := by
  unfold stripEnds
  rw [dropWhile_eq_self_of_head h1]
  rw [dropWhile_eq_self_of_head (by
    intro c hc
    exact h2 c (by rwa [List.head?_reverse] at hc))]
  exact List.reverse_reverse v

theorem takeWhile_all_append {p : Char → Bool} :
    ∀ (a : List Char) {b : Char} (t : List Char), (∀ c ∈ a, p c = true) → p b = false →
      (a ++ b :: t).takeWhile p = a := by
  intro a
  induction a with
  | nil => intro b t _ hb; simp [List.takeWhile, hb]
  | cons c r ih =>
    intro b t ha hb
    simp only [List.cons_append, List.takeWhile]
    rw [ha c (List.mem_cons_self c r)]
    simp [ih t (fun d hd => ha d (List.mem_cons_of_mem c hd)) hb]

/-! ## Claim C4: the nested value formatter -/

/-- C4 counterexample: the claim read literally wraps a whitespace-padded
nested table in double quotes, but `_format_field_value` applies the brace
test to the stripped value and returns it stripped: on the input
`" {1} "` the code emits `{1}` while the claimed rules emit `" {1} "`
wrapped in quotes. -/
theorem format_value_claim_cex :
    formatFieldValue " \x7b1\x7d ".data = "\x7b1\x7d".data ∧
    formatFieldValueClaim " \x7b1\x7d ".data = ('"' :: " \x7b1\x7d ".data ++ ['"']) ∧
    ¬(formatFieldValue " \x7b1\x7d ".data = formatFieldValueClaim " \x7b1\x7d ".data) := by
  refine ⟨by decide, by decide, by decide⟩

/-- C4 amended: the formatter follows the claimed decision chain with the
brace test applied to the whitespace-stripped value (emitting the stripped
value); in particular `3`, `3.5`, `-2` serialize unquoted, `abc` and the
empty value serialize quoted, and an already-quoted numeric-looking string
passes through unchanged. -/
theorem format_value_spec :
    (∀ v, formatFieldValue v = formatFieldValueClaimAmended v) ∧
    formatFieldValue "3".data = "3".data ∧
    formatFieldValue "3.5".data = "3.5".data ∧
    formatFieldValue "-2".data = "-2".data ∧
    formatFieldValue "abc".data = "\"abc\"".data ∧
    formatFieldValue "".data = "\"\"".data ∧
    formatFieldValue "\"3\"".data = "\"3\"".data := by
  refine ⟨fun v => rfl, by decide, by decide, by decide, by decide, by decide, by decide⟩

/-! ## Claim C5: flat formatter vs nested formatter -/

/-- C5 counterexample: a value bounded by matching single quotes is
emitted unchanged by the nested formatter but re-wrapped in double quotes
by the flat formatter, so the two formatters differ on `'abc'`. -/
theorem format_value_flat_cex :
    formatFieldValue (sq :: "abc".data ++ [sq]) = sq :: "abc".data ++ [sq] ∧
    formatFieldValueW3I (sq :: "abc".data ++ [sq]) = "\"abc\"".data ∧
    ¬(formatFieldValueW3I (sq :: "abc".data ++ [sq]) =
        formatFieldValue (sq :: "abc".data ++ [sq])) := by
  refine ⟨by decide, by decide, by decide⟩

/-- C5 amended: the flat formatter agrees with the nested one on every
value that carries no surrounding whitespace and neither starts nor ends
with a quote character; it differs when quote characters surround the
value (it strips them and re-wraps in double quotes) and on
whitespace-padded nested tables (it skips the strip). -/
theorem format_value_flat_agree :
    ∀ v, pyStrip v = v →
      (∀ c, v.head? = some c → c ≠ '"' ∧ c ≠ sq) →
      (∀ c, v.getLast? = some c → c ≠ '"' ∧ c ≠ sq) →
      formatFieldValueW3I v = formatFieldValue v := by
  intro v hs hq1 hq2
  by_cases hv : v = []
  · subst hv; rfl
  · have hquotes : pyStripQuotes v = v := by
      apply stripEnds_eq_self_of
      · intro c hc
        rcases hq1 c hc with ⟨h1, h2⟩
        simp [isQuoteChar, h1, h2]
      · intro c hc
        rcases hq2 c hc with ⟨h1, h2⟩
        simp [isQuoteChar, h1, h2]
    unfold formatFieldValue formatFieldValueW3I
    rw [if_neg hv, if_neg hv]
    by_cases hb : (pyStrip v).head? = some '{' ∧ (pyStrip v).getLast? = some '}'
    · rw [if_pos hb, if_pos hb, hs]
    · rw [if_neg hb, if_neg hb]
      by_cases hf : pyFloatAccepts v
      · simp [hf]
      · have hnq : ¬((v.head? = some '"' ∧ v.getLast? = some '"') ∨
            (v.head? = some sq ∧ v.getLast? = some sq)) := by
          rintro (⟨ha, _⟩ | ⟨ha, _⟩)
          · exact (hq1 _ ha).1 rfl
          · exact (hq1 _ ha).2 rfl
        simp [hf, hnq, hquotes]

/-- C5 amended witness at the concrete value `abc`. -/
theorem format_value_flat_agree_witness :
    formatFieldValueW3I "abc".data = formatFieldValue "abc".data :=
  format_value_flat_agree "abc".data (by decide)
    (by decide) (by decide)

/-! ## Claim C6: id split and rejoin -/

theorem dropWhile_mem_underscore :
    ∀ (l : List Char), '_' ∈ l →
      ∃ t, l.dropWhile (fun c => c ≠ '_') = '_' :: t := by
  intro l hl
  induction l with
  | nil => cases hl
  | cons c r ih =>
    by_cases hc : c = '_'
    · subst hc
      refine ⟨r, ?_⟩
      rw [List.dropWhile_cons, if_neg (by simp)]
    · have hr : '_' ∈ r := by
        rcases List.mem_cons.mp hl with h | h
        · exact absurd h.symm hc
        · exact h
      rcases ih hr with ⟨t, ht⟩
      refine ⟨t, ?_⟩
      rw [List.dropWhile_cons, if_pos (by simp [hc]), ht]

/-- C6 counterexample: the id `A_` splits into main `A` and empty suffix,
and rejoining (which omits the underscore on an empty suffix) yields `A`,
not the original id. -/
theorem id_split_rejoin_cex :
    splitId "A_".data = ("A".data, []) ∧
    rejoinId "A".data [] = "A".data ∧
    ¬(rejoinId (splitId "A_".data).1 (splitId "A_".data).2 = "A_".data) := by
  refine ⟨by decide, by decide, by decide⟩

/-- C6 amended: splitting on the first underscore and rejoining restores
every id except those whose first underscore is the final character (an
underscore with an empty suffix is dropped by the rejoin); `H000_v2` and
`FOOT` round-trip as the claim states. -/
theorem id_split_rejoin :
    (∀ id : List Char, (splitId id).2 ≠ [] ∨ '_' ∉ id →
      rejoinId (splitId id).1 (splitId id).2 = id) ∧
    splitId "H000_v2".data = ("H000".data, "v2".data) ∧
    rejoinId "H000".data "v2".data = "H000_v2".data ∧
    splitId "FOOT".data = ("FOOT".data, []) ∧
    rejoinId "FOOT".data [] = "FOOT".data := by
  refine ⟨?_, by decide, by decide, by decide, by decide⟩
  intro id h
  by_cases hm : '_' ∈ id
  · rcases dropWhile_mem_underscore id hm with ⟨t, ht⟩
    have hsplit : splitId id = (id.takeWhile (fun c => c ≠ '_'), t) := by
      unfold splitId
      rw [if_pos hm, ht]
      rfl
    rw [hsplit]
    rcases h with h | h
    · by_cases hts : t = []
      · rw [hsplit] at h
        exact absurd hts (by simpa using h)
      · have hrj : rejoinId (id.takeWhile fun c => c ≠ '_') t =
            id.takeWhile (fun c => c ≠ '_') ++ '_' :: t := by
          unfold rejoinId
          rw [if_pos hts]
        rw [hrj, ← ht]
        exact List.takeWhile_append_dropWhile _ _
    · exact absurd hm h
  · have hsplit : splitId id = (id, []) := by
      unfold splitId
      rw [if_neg hm]
    rw [hsplit]
    rfl

/-- C6 amended witness at the id `H000_v2` (nonempty suffix hypothesis). -/
theorem id_split_rejoin_witness :
    rejoinId (splitId "H000_v2".data).1 (splitId "H000_v2".data).2 = "H000_v2".data :=
  id_split_rejoin.1 "H000_v2".data (Or.inl (by decide))

/-! ## Marker split/join lemmas -/

theorem splitMarkerAux_free :
    ∀ (v acc : List Char), (∀ c ∈ v, c ≠ 'お') →
      splitMarkerAux acc v = [acc.reverse ++ v] := by
  intro v
  induction v with
  | nil => intro acc _; simp [splitMarkerAux]
  | cons c r ih =>
    intro acc hv
    have hc : c ≠ 'お' := hv c (List.mem_cons_self c r)
    unfold splitMarkerAux
    rw [if_neg hc, ih (c :: acc) (fun d hd => hv d (List.mem_cons_of_mem c hd))]
    simp

theorem splitMarkerAux_cons_ne {c : Char} (hc : c ≠ 'お') (acc r : List Char) :
    splitMarkerAux acc (c :: r) = splitMarkerAux (c :: acc) r := by
  by_cases h : ∃ r2, r = 'な' :: 'に' :: r2
  · obtain ⟨r2, rfl⟩ := h
    rw [splitMarkerAux.eq_2, if_neg hc]
  · rw [splitMarkerAux.eq_3 acc c r (fun r2 he => h ⟨r2, he⟩), if_neg hc]

theorem splitMarkerAux_boundary :
    ∀ (v acc t : List Char), (∀ c ∈ v, c ≠ 'お') →
      splitMarkerAux acc (v ++ marker ++ t) = (acc.reverse ++ v) :: splitMarkerAux [] t := by
  intro v
  induction v with
  | nil =>
    intro acc t _
    show splitMarkerAux acc ('お' :: 'な' :: 'に' :: t) = (acc.reverse ++ []) :: splitMarkerAux [] t
    simp [splitMarkerAux]
  | cons c r ih =>
    intro acc t hv
    have hc : c ≠ 'お' := hv c (List.mem_cons_self c r)
    show splitMarkerAux acc (c :: (r ++ marker ++ t)) = (acc.reverse ++ c :: r) :: splitMarkerAux [] t
    rw [splitMarkerAux_cons_ne hc acc _,
      ih (c :: acc) t (fun d hd => hv d (List.mem_cons_of_mem c hd))]
    simp

theorem containsMarker_append :
    ∀ (v t : List Char), (∀ c ∈ v, c ≠ 'お') →
      containsMarker (v ++ marker ++ t) = true := by
  intro v
  induction v with
  | nil =>
    intro t _
    show containsMarker ('お' :: 'な' :: 'に' :: t) = true
    simp [containsMarker]
  | cons c r ih =>
    intro t hv
    have hc : c ≠ 'お' := hv c (List.mem_cons_self c r)
    show containsMarker (c :: (r ++ marker ++ t)) = true
    unfold containsMarker
    rw [if_neg hc]
    exact ih t (fun d hd => hv d (List.mem_cons_of_mem c hd))

theorem splitMarker_joinMarker :
    ∀ vs : List (List Char), vs ≠ [] → (∀ v ∈ vs, ∀ c ∈ v, c ≠ 'お') →
      splitMarker (joinMarker vs) = vs := by
  intro vs
  induction vs with
  | nil => intro h _; exact absurd rfl h
  | cons v rest ih =>
    intro _ hfree
    cases rest with
    | nil =>
      show splitMarkerAux [] (joinMarker [v]) = [v]
      have hj : joinMarker [v] = v := rfl
      rw [hj, splitMarkerAux_free v [] (hfree v (List.mem_cons_self v []))]
      simp
    | cons v2 t =>
      have hj : joinMarker (v :: v2 :: t) = v ++ marker ++ joinMarker (v2 :: t) := rfl
      show splitMarkerAux [] (joinMarker (v :: v2 :: t)) = v :: v2 :: t
      rw [hj, splitMarkerAux_boundary v [] _ (hfree v (List.mem_cons_self v _))]
      have hrest : splitMarkerAux [] (joinMarker (v2 :: t)) = v2 :: t :=
        ih (by simp) (fun w hw => hfree w (List.mem_cons_of_mem v hw))
      rw [hrest]
      simp

/-! ## Claim C1: duplicate-field merge and round trip -/

/-- C1: a repeated field name is merged into one value joined by the
private marker (`dmg=1, dmg=2` parses to a single `dmg` entry), the CSV
cell keeps the merged value intact, and the TXT writer splits the cell
back into one `name=value,` line per piece, in source order.  The two
universally quantified parts show that the merge appends the new value at
the existing slot and that the writer restores exactly the joined pieces
in order for any marker-free MultiValue with at least two elements. -/
theorem dup_field_merge_roundtrip :
    parseEntryFields "dmg=1, dmg=2".data = [("dmg".data, "1おなに2".data)] ∧
    cleanValueForCsv "1おなに2".data = "1おなに2".data ∧
    writeFieldLines "dmg".data "1おなに2".data =
      ["\t\t\tdmg=1,\n".data, "\t\t\tdmg=2,\n".data] ∧
    (∀ (pre post : List (List Char × List Char)) (n w v : List Char),
      (∀ p ∈ pre, p.1 ≠ n) →
      dictInsert (pre ++ (n, w) :: post) n v = pre ++ (n, w ++ marker ++ v) :: post) ∧
    (∀ (n : List Char) (vs : List (List Char)), vs ≠ [] → vs.tail ≠ [] →
      (∀ v ∈ vs, 'お' ∉ v) →
      writeFieldLines n (joinMarker vs) = vs.map (fieldLine n)) := by
  refine ⟨by decide, by decide, by decide, ?_, ?_⟩
  · intro pre
    induction pre with
    | nil =>
      intro post n w v _
      show dictInsert ((n, w) :: post) n v = (n, w ++ marker ++ v) :: post
      unfold dictInsert
      rw [if_pos rfl]
    | cons p pre' ih =>
      intro post n w v hp
      show dictInsert (p :: (pre' ++ (n, w) :: post)) n v =
        p :: (pre' ++ (n, w ++ marker ++ v) :: post)
      rcases p with ⟨k, w0⟩
      unfold dictInsert
      rw [if_neg (hp (k, w0) (List.mem_cons_self _ _)),
        ih post n w v (fun q hq => hp q (List.mem_cons_of_mem _ hq))]
  · intro n vs h1 h2 hfree
    have hfree' : ∀ v ∈ vs, ∀ c ∈ v, c ≠ 'お' := by
      intro v hv c hc he
      exact hfree v hv (he ▸ hc)
    match vs, h1, h2 with
    | v1 :: v2 :: t, _, _ =>
      have hj : joinMarker (v1 :: v2 :: t) = v1 ++ marker ++ joinMarker (v2 :: t) := rfl
      have hcm : containsMarker (joinMarker (v1 :: v2 :: t)) = true := by
        rw [hj]
        exact containsMarker_append v1 _ (hfree' v1 (List.mem_cons_self _ _))
      unfold writeFieldLines
      rw [if_pos hcm, splitMarker_joinMarker (v1 :: v2 :: t) (by simp) hfree']

/-- C1 witness: the merge lemma applied with an empty prefix and the
writer lemma applied to the MultiValue `[1, 2]` under the field `dmg`. -/
theorem dup_field_merge_roundtrip_witness :
    dictInsert [("dmg".data, "1".data)] "dmg".data "2".data =
      [("dmg".data, "1".data ++ marker ++ "2".data)] ∧
    writeFieldLines "dmg".data (joinMarker ["1".data, "2".data]) =
      ["1".data, "2".data].map (fieldLine "dmg".data) :=
  ⟨dup_field_merge_roundtrip.2.2.2.1 [] [] "dmg".data "1".data "2".data (by simp),
   dup_field_merge_roundtrip.2.2.2.2 "dmg".data ["1".data, "2".data]
     (by simp) (by simp) (by decide)⟩

/-! ## Claim C2: nested-table values across the round trip -/

/-- C2 counterexample: a brace-bounded value containing an internal
newline is NOT reproduced byte-for-byte by the TXT→CSV→TXT round trip,
even modulo surrounding whitespace: the CSV writer collapses the internal
newline to a space, so the value comes back changed inside. -/
theorem nested_value_collapse_cex :
    roundTripValue "\x7b1,\n2\x7d".data = "\x7b1, 2\x7d".data ∧
    ¬(roundTripValue "\x7b1,\n2\x7d".data = "\x7b1,\n2\x7d".data) ∧
    ¬(pyStrip (roundTripValue "\x7b1,\n2\x7d".data) = pyStrip "\x7b1,\n2\x7d".data) := by
  refine ⟨by decide, by decide, by decide⟩

/-- C2 amended: a brace-bounded value already in CSV-normal form (no
newlines/tabs, no multi-space runs, no surrounding whitespace — i.e. one
the cell cleaner leaves unchanged) survives the TXT→CSV→TXT round trip
byte-for-byte; in particular `unit={1,2,3}` parses to the exact span
`{1,2,3}` and is emitted back byte-identically. -/
theorem nested_value_roundtrip :
    (∀ v : List Char, v.head? = some '{' → v.getLast? = some '}' →
      cleanValueForCsv v = v → roundTripValue v = v) ∧
    parseEntryFields "unit=\x7b1,2,3\x7d".data = [("unit".data, "\x7b1,2,3\x7d".data)] ∧
    roundTripValue "\x7b1,2,3\x7d".data = "\x7b1,2,3\x7d".data ∧
    writeFieldLines "unit".data "\x7b1,2,3\x7d".data =
      ["\t\t\tunit=\x7b1,2,3\x7d,\n".data] := by
  refine ⟨?_, by decide, by decide, by decide⟩
  intro v h1 h2 h3
  have hne : v ≠ [] := by
    intro h
    subst h
    cases h1
  have hstrip : pyStrip v = v := by
    apply stripEnds_eq_self_of
    · intro c hc
      rw [h1] at hc
      cases hc
      rfl
    · intro c hc
      rw [h2] at hc
      cases hc
      rfl
  unfold roundTripValue
  rw [h3, hstrip]
  unfold formatFieldValue
  rw [if_neg hne, if_pos (by rw [hstrip]; exact ⟨h1, h2⟩)]
  exact hstrip

/-- C2 amended witness at the concrete value `{1,2,3}`. -/
theorem nested_value_roundtrip_witness :
    roundTripValue "\x7b1,2,3\x7d".data = "\x7b1,2,3\x7d".data :=
  nested_value_roundtrip.1 "\x7b1,2,3\x7d".data (by decide) (by decide) (by decide)

/-! ## Brace-matcher step lemmas (claim C3) -/

theorem findMBAux_open (cnt : Int) (r : List Char) (i : Nat) :
    findMBAux cnt ('{' :: r) i = findMBAux (cnt + 1) r (i + 1) := by
  simp [findMBAux]

theorem findMBAux_close (cnt : Int) (r : List Char) (i : Nat) (h : ¬(cnt - 1 = 0)) :
    findMBAux cnt ('}' :: r) i = findMBAux (cnt - 1) r (i + 1) := by
  simp [findMBAux, h]

theorem findMBAux_other (cnt : Int) {c : Char} (r : List Char) (i : Nat)
    (h1 : c ≠ '{') (h2 : c ≠ '}') :
    findMBAux cnt (c :: r) i = findMBAux cnt r (i + 1) := by
  simp [findMBAux, h1, h2]

theorem findMBAux_through :
    ∀ (s t : List Char) (cnt : Int) (i : Nat),
      (∀ n, n ≤ s.length → 1 ≤ cnt + braceCount (s.take n)) →
      findMBAux cnt (s ++ t) i = findMBAux (cnt + braceCount s) t (i + s.length) := by
  intro s
  induction s with
  | nil =>
    intro t cnt i _
    simp [braceCount]
  | cons c r ih =>
    intro t cnt i h
    have hstep : ∀ n, n ≤ r.length → 1 ≤ (cnt + braceDelta c) + braceCount (r.take n) := by
      intro n hn
      have h2 := h (n + 1) (by simp only [List.length_cons]; omega)
      rw [List.take_succ_cons] at h2
      have hbc : braceCount (c :: r.take n) = braceDelta c + braceCount (r.take n) := rfl
      rw [hbc] at h2
      omega
    have hbc2 : braceCount (c :: r) = braceDelta c + braceCount r := rfl
    have hlen : (c :: r).length = r.length + 1 := rfl
    show findMBAux cnt (c :: (r ++ t)) i = findMBAux (cnt + braceCount (c :: r)) t (i + (c :: r).length)
    rw [hbc2, hlen]
    by_cases hc : c = '{'
    · subst hc
      have hd : braceDelta '{' = 1 := rfl
      rw [findMBAux_open, ih t (cnt + 1) (i + 1) (by intro n hn; have := hstep n hn; rw [hd] at this; omega)]
      rw [hd]
      congr 1
      · omega
      · omega
    · by_cases hc2 : c = '}'
      · subst hc2
        have hd : braceDelta '}' = -1 := rfl
        have hne : ¬(cnt - 1 = 0) := by
          have := hstep 0 (Nat.zero_le _)
          rw [hd] at this
          simp [braceCount] at this
          omega
        rw [findMBAux_close cnt _ i hne,
          ih t (cnt - 1) (i + 1) (by intro n hn; have := hstep n hn; rw [hd] at this; omega)]
        rw [hd]
        congr 1
        · omega
        · omega
      · have hd : braceDelta c = 0 := by simp [braceDelta, hc, hc2]
        rw [findMBAux_other cnt _ i hc hc2,
          ih t cnt (i + 1) (by intro n hn; have := hstep n hn; rw [hd] at this; omega)]
        rw [hd]
        congr 1
        · omega
        · omega

/-! ## Claim C3: entry-level brace matching is NOT quote-aware -/

/-- C3 counterexample: in `A={x="}"}` the quoted string value contains a
closing brace; the naive entry matcher ends the entry at that in-string
brace, so the extracted body is truncated to `x="` and the stored value is
the lone quote character instead of the full quoted span `"}"`. -/
theorem entry_brace_quote_cex :
    parseDataSection "A=\x7bx=\"\x7d\"\x7d".data = [("A".data, [("x".data, "\"".data)])] ∧
    ¬("\"".data = "\"\x7d\"".data) := by
  refine ⟨by decide, by decide⟩

/-- C3 amended: `find_matching_brace` counts braces naively, without
skipping quoted spans.  The universally quantified part proves the
matcher lands on the structurally matching close for every body whose
full character sequence — quoted strings included — is brace-balanced
(prefix counts nonnegative, total zero); in particular this covers every
entry whose quoted strings contain no brace characters, such as the
concrete body mixing a quoted value and a nested table.  When in-string
braces do unbalance the count the guarantee fails in one of two ways,
both shown concretely: in-string braces that balance each other still
land on the structural close (`x="{}"` parses fully), while a lone
in-string opening brace makes the count never return to zero, so the
entry is skipped as unbalanced and dropped (`x="{"` yields no entry; the
counterexample already shows a lone in-string closing brace truncating
the body early). -/
theorem entry_brace_naive_matching :
    (∀ s : List Char,
      (∀ n, n ≤ s.length → 0 ≤ braceCount (s.take n)) →
      braceCount s = 0 →
      findMatchingBrace ('{' :: s ++ ['}']) 0 = some (s.length + 1)) ∧
    parseDataSection "A=\x7bx=\"a\",y=\x7b1\x7d\x7d".data =
      [("A".data, [("x".data, "\"a\"".data), ("y".data, "\x7b1\x7d".data)])] ∧
    parseDataSection "A=\x7bx=\"\x7b\x7d\"\x7d".data =
      [("A".data, [("x".data, "\"\x7b\x7d\"".data)])] ∧
    parseDataSection "A=\x7bx=\"\x7b\"\x7d".data = [] := by
  refine ⟨?_, by decide, by decide, by decide⟩
  intro s hpre htot
  unfold findMatchingBrace
  rw [List.drop_zero, List.cons_append, findMBAux_open]
  simp only [zero_add]
  rw [findMBAux_through s ['}'] 1 1 (by intro n hn; have := hpre n hn; omega), htot]
  have h1 : (1 : Int) + 0 = 1 := rfl
  rw [h1]
  have hclose : findMBAux 1 ['}'] (1 + s.length) = some (1 + s.length) := by
    simp [findMBAux]
  rw [hclose, Nat.add_comm]

/-- C3 amended witness at the balanced body `x="a",y={1}`. -/
theorem entry_brace_naive_matching_witness :
    findMatchingBrace ('{' :: "x=\"a\",y=\x7b1\x7d".data ++ ['}']) 0 =
      some ("x=\"a\",y=\x7b1\x7d".data.length + 1) :=
  entry_brace_naive_matching.1 "x=\"a\",y=\x7b1\x7d".data (by decide) (by decide)

/-! ## Claim C10: entry-id uniqueness, last occurrence wins -/

theorem keys_dictSet {α : Type} :
    ∀ (d : List (List Char × α)) (k : List Char) (v : α),
      (dictSet d k v).map Prod.fst =
        if k ∈ d.map Prod.fst then d.map Prod.fst else d.map Prod.fst ++ [k] := by
  intro d k v
  induction d with
  | nil =>
    rw [if_neg (by exact List.not_mem_nil k)]
    rfl
  | cons p rest ih =>
    rcases p with ⟨k0, w⟩
    show (if k0 = k then (k0, v) :: rest else (k0, w) :: dictSet rest k v).map Prod.fst = _
    by_cases hk : k0 = k
    · subst hk
      rw [if_pos rfl, if_pos (by exact List.mem_cons_self k0 _)]
      rfl
    · have hne : ¬(k = k0) := fun h => hk h.symm
      rw [if_neg hk]
      have hmap : ((k0, w) :: dictSet rest k v).map Prod.fst =
          k0 :: (dictSet rest k v).map Prod.fst := rfl
      rw [hmap, ih]
      by_cases hmem : k ∈ rest.map Prod.fst
      · rw [if_pos hmem, if_pos (by exact List.mem_cons_of_mem k0 hmem)]
        rfl
      · rw [if_neg hmem, if_neg (by
          intro hcon
          rcases List.mem_cons.mp hcon with h | h
          · exact hne h
          · exact hmem h)]
        rfl

theorem nodup_keys_dictSet {α : Type} (d : List (List Char × α)) (k : List Char) (v : α)
    (h : (d.map Prod.fst).Nodup) : ((dictSet d k v).map Prod.fst).Nodup := by
  rw [keys_dictSet]
  by_cases hm : k ∈ d.map Prod.fst
  · simpa [hm]
  · rw [if_neg hm]
    exact List.Nodup.append h (List.nodup_singleton k) (by simp [hm])

theorem parseDataSectionAux_nodup :
    ∀ (fuel : Nat) (content : List Char) (pos : Nat)
      (d : List (List Char × List (List Char × List Char))),
      (d.map Prod.fst).Nodup →
      ((parseDataSectionAux fuel content pos d).map Prod.fst).Nodup := by
  intro fuel
  induction fuel with
  | zero => intro content pos d h; exact h
  | succ fuel ih =>
    intro content pos d h
    simp only [parseDataSectionAux]
    split
    · split
      · exact h
      · split
        · exact ih content _ d h
        · exact ih content _ _ (nodup_keys_dictSet d _ _ h)
    · exact h

/-- C10: after parsing a section, entry ids are unique (the resulting
association list has pairwise-distinct keys for every input), and a
repeated id keeps its original slot while its fields are silently replaced
by those of the last occurrence. -/
theorem entry_ids_unique_last_wins :
    (∀ content : List Char, ((parseDataSection content).map Prod.fst).Nodup) ∧
    parseDataSection "A=\x7bx=1\x7d,\nA=\x7bx=2\x7d".data =
      [("A".data, [("x".data, "2".data)])] ∧
    parseDataSection "A=\x7bx=1\x7d,\nB=\x7by=2\x7d,\nA=\x7bx=3\x7d".data =
      [("A".data, [("x".data, "3".data)]), ("B".data, [("y".data, "2".data)])] := by
  refine ⟨?_, by decide, by decide⟩
  intro content
  exact parseDataSectionAux_nodup _ content 0 [] (by simp)

/-! ## Claim C7: flat pair splitting -/

/-- C7 counterexample: the pair regex is not quote-aware, so the body
`{"a,b",1}` splits at the comma INSIDE the quoted key: the stored key is
`"a` (with a dangling quote) and the value is `b",1`, not key `a,b` and
value `1` as quote-aware splitting would give. -/
theorem flat_pair_quoted_comma_cex :
    parseKVPairs "\x7b\"a,b\",1\x7d".data = [("\"a".data, "b\",1".data)] ∧
    ¬("\"a".data = "a,b".data) ∧ ¬("b\",1".data = "1".data) := by
  refine ⟨by decide, by decide, by decide⟩

/-- C7 amended: the flat parser splits each `{key, value}` tuple at the
first comma after the `{` — regardless of quoting, so a comma inside a
quoted span does split — strips matching surrounding quotes from the key,
and recovers a nested-brace value by a follow-up brace scan.  The general
part characterises the anchored pair match for any comma-free key and
brace-free value; the concrete parts show quote stripping, first-comma
splitting, and nested-value recovery. -/
theorem flat_pair_first_comma_split :
    (∀ (k v : List Char), k ≠ [] →
      (∀ c ∈ k, c ≠ ',' ∧ c ≠ '}') →
      (∀ c ∈ v, isPySpace c = false ∧ c ≠ '}') →
      matchPairAt ('{' :: (k ++ ',' :: (v ++ ['}']))) =
        some (k, k.length + 2, v, k.length + v.length + 3)) ∧
    parseKVPairs "\x7b\"k1\",\"hello\"\x7d,\x7bk2,3\x7d,".data =
      [("k1".data, "\"hello\"".data), ("k2".data, "3".data)] ∧
    parseKVPairs "\x7ba,b,c\x7d".data = [("a".data, "b,c".data)] ∧
    parseKVPairs "\x7bk,\x7b1,2\x7d\x7d".data = [("k".data, "\x7b1,2\x7d".data)] := by
  refine ⟨?_, by decide, by decide, by decide⟩
  intro k v hk hkc hvc
  show (let kRun := (k ++ ',' :: (v ++ ['}'])).takeWhile fun c => !(c = ',' || c = '}')
    if kRun = [] then none
    else
      match (k ++ ',' :: (v ++ ['}'])).drop kRun.length with
      | ',' :: r3 =>
        let ws := r3.takeWhile isPySpace
        let r4 := r3.drop ws.length
        let vRun := r4.takeWhile fun c => !(c = '}')
        match r4.drop vRun.length with
        | '}' :: _ =>
          some (kRun, 1 + kRun.length + 1 + ws.length, vRun,
                1 + kRun.length + 1 + ws.length + vRun.length + 1)
        | _ => none
      | _ => none) =
    some (k, k.length + 2, v, k.length + v.length + 3)
  have hkRun : (k ++ ',' :: (v ++ ['}'])).takeWhile (fun c => !(c = ',' || c = '}')) = k := by
    apply takeWhile_all_append k (v ++ ['}'])
    · intro c hc
      rcases hkc c hc with ⟨h1, h2⟩
      simp [h1, h2]
    · simp
  have hdropK : (k ++ ',' :: (v ++ ['}'])).drop k.length = ',' :: (v ++ ['}']) :=
    List.drop_left k _
  have hws : (v ++ ['}']).takeWhile isPySpace = [] := by
    apply takeWhile_eq_nil_of_head
    intro c hc
    cases v with
    | nil =>
      cases hc
      rfl
    | cons d r =>
      have hcd : c = d := by
        rw [List.cons_append] at hc
        cases hc
        rfl
      rw [hcd]
      exact (hvc d (List.mem_cons_self d r)).1
  have hvRun : (v ++ ['}']).takeWhile (fun c => !(c = '}')) = v := by
    apply takeWhile_all_append v ([] : List Char)
    · intro c hc
      simp [(hvc c hc).2]
    · simp
  have hdropV : (v ++ ['}']).drop v.length = ['}'] := List.drop_left v _
  simp only [hkRun, if_neg hk, hdropK, hws, List.length_nil, List.drop_zero, hvRun, hdropV]
  simp only [Option.some.injEq, Prod.mk.injEq, true_and, and_true]
  omega

/-- C7 amended witness: the pair match applied to key `a`, value `1`. -/
theorem flat_pair_first_comma_split_witness :
    matchPairAt ('{' :: ("a".data ++ ',' :: ("1".data ++ ['}']))) =
      some ("a".data, "a".data.length + 2, "1".data, "a".data.length + "1".data.length + 3) :=
  flat_pair_first_comma_split.1 "a".data "1".data (by decide) (by decide) (by decide)

/-! ## Claim C8: version extraction -/

theorem isPySpace_eq_false_of_isDigit {c : Char} (h : c.isDigit = true) :
    isPySpace c = false := by
  cases hps : isPySpace c
  · rfl
  · exfalso
    simp only [isPySpace, Bool.or_eq_true, decide_eq_true_eq] at hps
    rcases hps with ((((h1 | h1) | h1) | h1) | h1) | h1 <;>
      (subst h1; exact absurd h (by decide))

/-- C8 counterexample: a flat-format input containing `VERSION = 7` does
NOT have that value recovered — the flat `_parse_txt_file` never searches
for the token, so the converter keeps its default 25 (the nested search
would have found 7 in the same text). -/
theorem flat_version_ignored_cex :
    parseW3ITxt 25 "VERSION = 7\nreturn\x7b\x7bk,1\x7d\x7d".data =
      .ok (25, [("k".data, "1".data)]) ∧
    nestedVersionOf "VERSION = 7\nreturn\x7b\x7bk,1\x7d\x7d".data = 7 ∧
    (25 : Nat) ≠ 7 := by
  refine ⟨rfl, by decide, by decide⟩

/-- C8 amended: the NESTED converter extracts the version via
`VERSION = <int>` anywhere in the text (general statement for a token at
the front, concrete demonstrations for presence and absence, default 2);
the FLAT converter's TXT parse never updates the version, so whatever
version the converter holds (default 25) survives any input. -/
theorem version_extraction_rules :
    nestedVersionOf "VERSION = 7,\nreturn\x7b\x7d".data = 7 ∧
    nestedVersionOf "return\x7b\x7d".data = 2 ∧
    (∀ (ds rest : List Char), ds ≠ [] → (∀ c ∈ ds, c.isDigit = true) →
      nestedVersionOf ("VERSION=".data ++ (ds ++ ',' :: rest)) = natOfDigits ds) ∧
    (∀ (v0 : Nat) (content : List Char) (r : Nat × List (List Char × List Char)),
      parseW3ITxt v0 content = .ok r → r.1 = v0) := by
  refine ⟨by decide, by decide, ?_, ?_⟩
  · intro ds rest hds hdig
    show nestedVersionOf
      ('V' :: 'E' :: 'R' :: 'S' :: 'I' :: 'O' :: 'N' :: '=' :: (ds ++ ',' :: rest)) =
      natOfDigits ds
    have hdw : (ds ++ ',' :: rest).dropWhile isPySpace = ds ++ ',' :: rest := by
      apply dropWhile_eq_self_of_head
      intro c hc
      cases ds with
      | nil => cases hds rfl
      | cons d r =>
        have hcd : c = d := by
          rw [List.cons_append] at hc
          cases hc
          rfl
        rw [hcd]
        exact isPySpace_eq_false_of_isDigit (hdig d (List.mem_cons_self d r))
    have htw : (ds ++ ',' :: rest).takeWhile Char.isDigit = ds := by
      apply takeWhile_all_append ds rest
      · intro c hc
        exact hdig c hc
      · rfl
    have hmv : matchVersionAt
        ('V' :: 'E' :: 'R' :: 'S' :: 'I' :: 'O' :: 'N' :: '=' :: (ds ++ ',' :: rest)) =
        some ds := by
      show (match ('=' :: (ds ++ ',' :: rest)).dropWhile isPySpace with
        | '=' :: r2 =>
          let ds' := (r2.dropWhile isPySpace).takeWhile Char.isDigit
          if ds' = [] then none else some ds'
        | _ => none) = some ds
      rw [List.dropWhile_cons, if_neg (by simp [isPySpace])]
      show (let ds' := ((ds ++ ',' :: rest).dropWhile isPySpace).takeWhile Char.isDigit
        if ds' = [] then none else some ds') = some ds
      rw [hdw, htw]
      exact if_neg hds
    unfold nestedVersionOf
    show (match searchVersionAux
        ('V' :: 'E' :: 'R' :: 'S' :: 'I' :: 'O' :: 'N' :: '=' :: (ds ++ ',' :: rest)) with
      | some ds' => natOfDigits ds'
      | none => 2) = natOfDigits ds
    rw [show searchVersionAux
        ('V' :: 'E' :: 'R' :: 'S' :: 'I' :: 'O' :: 'N' :: '=' :: (ds ++ ',' :: rest)) =
        some ds from by
      rw [searchVersionAux, hmv]]
  · intro v0 content r h
    unfold parseW3ITxt at h
    cases hs : searchReturnAux content with
    | none =>
      rw [hs] at h
      exact Except.noConfusion h
    | some mc =>
      rw [hs] at h
      cases h
      rfl

/-- C8 amended witness: version token `7` at the front of a text, and the
flat passthrough applied to a concrete successful parse. -/
theorem version_extraction_rules_witness :
    nestedVersionOf ("VERSION=".data ++ ("7".data ++ ',' :: "x".data)) = natOfDigits "7".data ∧
    ((25, [("k".data, "1".data)]) : Nat × List (List Char × List Char)).1 = 25 :=
  ⟨version_extraction_rules.2.2.1 "7".data "x".data (by decide) (by decide),
   version_extraction_rules.2.2.2 25 "return\x7b\x7bk,1\x7d\x7d".data
     (25, [("k".data, "1".data)]) rfl⟩

/-! ## Claim C9: anomaly absorption -/

/-- C9 counterexample: the FLAT converter does not absorb a missing
`return {...}` wrapper — its parse raises the wrapped error that
`txt_to_csv` surfaces to the caller, contradicting the claim that both
converters absorb structural anomalies. -/
theorem flat_missing_return_cex :
    parseW3ITxt 25 "hello".data = .error w3iMissingReturnMsg := rfl

/-- C9 amended: the NESTED converter absorbs all three anomalies — a
missing `return` wrapper falls back to parsing the whole text, an
unclosed section yields an empty section while its well-formed sibling is
still parsed, and an entry that never closes is skipped while scanning
continues — whereas the FLAT converter fails exactly when the `return`
wrapper is missing (its only caller-visible parse failure), as the final
universally quantified part states. -/
theorem parse_anomaly_absorption :
    parseNestedTxt "ORIGIN=\x7bA=\x7bx=1\x7d\x7d".data =
      ⟨2, [("A".data, [("x".data, "1".data)])], []⟩ ∧
    extractSection "ORIGIN=\x7bA=\x7bx=1\x7d\x7d,CUSTOM=\x7bB=\x7by=2\x7d".data
      "CUSTOM".data = [] ∧
    extractSection "ORIGIN=\x7bA=\x7bx=1\x7d\x7d,CUSTOM=\x7bB=\x7by=2\x7d".data
      "ORIGIN".data = "A=\x7bx=1\x7d".data ∧
    parseDataSection "A=\x7bx=1\nB=\x7by=2\x7d".data = [("B".data, [("y".data, "2".data)])] ∧
    (∀ (v0 : Nat) (content e : List Char),
      parseW3ITxt v0 content = .error e →
      searchReturnAux content = none ∧ e = w3iMissingReturnMsg) := by
  refine ⟨by decide, by decide, by decide, by decide, ?_⟩
  intro v0 content e h
  unfold parseW3ITxt at h
  cases hs : searchReturnAux content with
  | none =>
    rw [hs] at h
    cases h
    exact ⟨rfl, rfl⟩
  | some mc =>
    rw [hs] at h
    exact Except.noConfusion h

/-- C9 amended witness: the flat-failure characterisation applied to the
wrapperless input `hello`. -/
theorem parse_anomaly_absorption_witness :
    searchReturnAux "hello".data = none ∧
    w3iMissingReturnMsg = w3iMissingReturnMsg :=
  parse_anomaly_absorption.2.2.2.2 25 "hello".data w3iMissingReturnMsg rfl

end War3Map
